import Mathlib

/-!
# Verification of the cletus job-orchestration core

Shallow embedding of the job orchestration and streaming-output pipeline of the
cletus repository:

* `src/api/utils/output-parser.js` (protocol-line text extraction),
* `src/api/services/claude-service.js` (mock adapter: canned responses and
  keyword selection),
* `src/api/services/storage-service.js` (in-memory registry: bounded chunk
  store, capacity eviction, delete),
* `src/packages/api/services/job-service.ts` (orchestrator: createJob,
  processJobInBackground, processOutputStreams, completeJob, terminateJob,
  deleteJob),

together with a small-step interleaving model of the per-job background task
and concurrently arriving terminate and delete calls, at the granularity of
the await points of the JavaScript source (between two awaited operations no
other task can interleave; the model over-approximates the event-loop
schedules, so invariants proved over it hold for the real scheduler, while
every concrete counterexample trace used below corresponds to a real
schedule, as argued at the point of use).
-/

namespace Cletus

/-! ## Basic data (src/api/types/index.ts, job record built in job-service.ts) -/

/-- Job status enum: `pending | running | terminating | completed | failed |
terminated`. -/
inductive Status where
  | pending
  | running
  | terminating
  | completed
  | failed
  | terminated
deriving DecidableEq, Repr

/-- Chunk type field: `stdout | stderr | error | system`. -/
inductive CType where
  | stdout
  | stderr
  | error
  | system
deriving DecidableEq, Repr

/-- One captured output chunk, as built by `formatOutputChunk` in
`output-parser.js`: `{text, type, timestamp, jobId}`.  The `jobId` field is
omitted: the models below are keyed by job id already. -/
structure Chunk where
  text : String
  ctype : CType
  timestamp : Nat
deriving DecidableEq, Repr

/-- The job record created by `createJob` in `job-service.ts`.  The opaque
`options` bag and the `color` UI tag are omitted (opaque, not read by any of
the modelled code paths); the ephemeral `process` handle is modelled by the
boolean `processAttached` (the code only ever tests it for presence and calls
`kill` on it). -/
structure Job where
  id : String
  prompt : String
  status : Status
  progress : String
  completeMessage : String
  startedAt : Nat
  finishedAt : Option Nat
  processAttached : Bool
  outputHistory : List Chunk
deriving DecidableEq, Repr

/-- Per-job output stream record of the memory storage backend:
`{chunks, lastUpdate}`. -/
structure StreamSt where
  chunks : List Chunk
  lastUpdate : Nat
deriving DecidableEq, Repr

/-! ## JSON values and the output parser (src/api/utils/output-parser.js)

Protocol lines are newline-delimited JSON.  `parseClaudeJsonOutput` first runs
`JSON.parse`; we embed the function on the already-parsed JSON value (the
parse-failure branch returns the raw line verbatim and is outside the scope of
the claims, which quantify over lines that parse). -/

/-- JSON values. -/
inductive JVal where
  | jnull
  | jbool (b : Bool)
  | jnum (n : Int)
  | jstr (s : String)
  | jarr (xs : List JVal)
  | jobj (fields : List (String × JVal))
deriving Repr

/-- Field lookup in a JSON object field list (first binding wins, as in a JS
object literal after parsing). -/
def lookupField : List (String × JVal) → String → Option JVal
  | [], _ => none
  | (k, v) :: rest, key => if k = key then some v else lookupField rest key

/-- JS optional-chaining property access `v?.k`: a property read on an object;
on any non-object it yields undefined (`none`). -/
def JVal.get : JVal → String → Option JVal
  | .jobj fs, k => lookupField fs k
  | _, _ => none

/-- JS element access `v?.[0]`: index 0 of an array, or the property "0" of an
object; on other values the subsequent `.type` read yields undefined either
way, which the embedding collapses to `none`. -/
def JVal.index0 : JVal → Option JVal
  | .jarr xs => xs.head?
  | .jobj fs => lookupField fs "0"
  | _ => none

/-- Whether `item.type === 'text'`. -/
def isTextItem (v : JVal) : Bool :=
  match v.get "type" with
  | some (.jstr t) => t = "text"
  | _ => false

/-- String an item contributes inside `Array.prototype.join`: the `item.text`
value, with `undefined`/`null` joined as the empty string and primitives
coerced as JS does.  (Nested arrays/objects never occur in the protocol and
are given their simplest JS coercion here.) -/
def textOfItem (it : JVal) : String :=
  match it.get "text" with
  | some (.jstr s) => s
  | some (.jnum n) => toString n
  | some (.jbool b) => if b then "true" else "false"
  | some (.jarr _) => ""
  | some (.jobj _) => "[object Object]"
  | some .jnull => ""
  | none => ""

/-- JS truthiness of the `content[0].text` value, used by the non-array
fallback branch of `parseClaudeJsonOutput`; it returns that value when truthy,
coerced here like `textOfItem`. -/
def truthyText (it : JVal) : Option String :=
  match it.get "text" with
  | some (.jstr s) => if s = "" then none else some s
  | some (.jnum n) => if n = 0 then none else some (toString n)
  | some (.jbool b) => if b then some "true" else none
  | some (.jarr xs) => some (textOfItem (.jarr xs))
  | some (.jobj fs) => some (textOfItem (.jobj fs))
  | some .jnull => none
  | none => none

/-- `parsed.message?.content`. -/
def contentOf (parsed : JVal) : Option JVal :=
  (parsed.get "message").bind (fun m => m.get "content")

/-- The guard of `parseClaudeJsonOutput`:
`parsed.type === 'assistant' && parsed.message?.content?.[0]?.type === 'text'`. -/
def parseGuard (parsed : JVal) : Bool :=
  (match parsed.get "type" with
   | some (.jstr t) => t = "assistant"
   | _ => false)
  &&
  (match (contentOf parsed).bind JVal.index0 with
   | some item => isTextItem item
   | none => false)

/-- Shallow embedding of `parseClaudeJsonOutput` (output-parser.js, lines
8-31), applied to the parsed JSON value of a protocol line.  When the guard
holds and the content is an array, the source filters ALL text-typed items of
the whole array and joins their texts; when the content is not an array it
returns `content[0].text` if truthy; otherwise it returns null (`none`). -/
def parseClaudeJsonOutputVal (parsed : JVal) : Option String :=
  if parseGuard parsed then
    match contentOf parsed with
    | some (.jarr xs) =>
        some (String.join ((xs.filter (fun it => isTextItem it)).map textOfItem))
    | some other =>
        match other.index0 with
        | some item0 => truthyText item0
        | none => none
    | none => none
  else none

/-- An assistant protocol line with the given content array, as in the wire
protocol `{"type":"assistant","message":{"content":[...]}}`. -/
def mkAssistantLine (items : List JVal) : JVal :=
  .jobj [("type", .jstr "assistant"), ("message", .jobj [("content", .jarr items)])]

/-- A text-typed content item `{"type":"text","text": s}`. -/
def mkTextItem (s : String) : JVal :=
  .jobj [("type", .jstr "text"), ("text", .jstr s)]

/-- A tool-use content item (non-text-typed). -/
def mkToolUseItem : JVal :=
  .jobj [("type", .jstr "tool_use"), ("name", .jstr "Bash")]

/-- Modelled from the spec: the extraction rule as the specification words it
("concatenate the text of that item and of any immediately following text-type
items (stop scanning at the first non-text item)"), for comparison with the
embedded source function. -/
def specStopAtFirstNonText (items : List JVal) : Option String :=
  match items with
  | [] => none
  | first :: _ =>
      if isTextItem first then
        some (String.join ((items.takeWhile (fun it => isTextItem it)).map textOfItem))
      else none

/-! ## Mock Claude adapter (src/api/services/claude-service.js)

The mock variant emits each canned stdout chunk as
`JSON.stringify(value) + "\n"`; the byte-to-line framing
(`processStreamChunk`) reassembles exactly those lines, and
`JSON.parse (JSON.stringify v) = v`, so each stdout chunk is represented here
by its JSON value directly.  Stderr chunks are plain strings, stored verbatim.
Timing (per-chunk delay) is not part of any claim and is not modelled. -/

/-- A canned mock response script: stdout protocol-line values, stderr chunk
strings, and the simulated exit code. -/
structure MockResponse where
  chunks : List JVal
  errorChunks : List String
  exitCode : Nat
deriving Repr

/-- One stdout protocol line with a single text item. -/
def mockLine (s : String) : JVal :=
  mkAssistantLine [mkTextItem s]

/-- `getMockResponses().default`. -/
def mockDefault : MockResponse :=
  { chunks :=
      [ mockLine "This is a mock response from Claude.\n"
      , mockLine "Processing your request...\n"
      , mockLine "Task completed successfully!" ]
  , errorChunks := []
  , exitCode := 0 }

/-- `getMockResponses().error`: one stdout line, one stderr chunk, exit 1. -/
def mockError : MockResponse :=
  { chunks := [ mockLine "Starting task...\n" ]
  , errorChunks := [ "Error: Something went wrong\n" ]
  , exitCode := 1 }

/-- `getMockResponses().long`: ten numbered step lines, exit 0. -/
def mockLong : MockResponse :=
  { chunks :=
      (List.range 10).map (fun i =>
        mockLine ("Processing step " ++ toString (i + 1) ++ "/10...\n"))
  , errorChunks := []
  , exitCode := 0 }

/-- ASCII-faithful embedding of `prompt.toLowerCase()` (written on the
character list so that it evaluates by kernel reduction). -/
def jsToLower (s : String) : String := ⟨s.data.map Char.toLower⟩

/-- `String.prototype.includes`: `pat` occurs as a contiguous substring. -/
def strIncludes (s pat : String) : Bool :=
  (List.range (s.toList.length + 1)).any
    (fun i => (s.toList.drop i).take pat.toList.length = pat.toList)

/-- Shallow embedding of `selectMockResponse` (claude-service.js): falsy
(empty) prompt selects the default script; otherwise keyword matching on the
lowercased prompt, testing "error"/"fail" before "long"/"complex". -/
def selectMockResponse (prompt : String) : MockResponse :=
  if prompt = "" then mockDefault
  else
    let lower := jsToLower prompt
    if strIncludes lower "error" || strIncludes lower "fail" then mockError
    else if strIncludes lower "long" || strIncludes lower "complex" then mockLong
    else mockDefault

/-! ## In-memory storage backend (src/api/services/storage-service.js)

JS `Map`s are insertion-ordered with unique keys; they are modelled as
association lists where `mapSet` overwrites in place when the key is present
(preserving the original insertion position, as `Map.prototype.set` does) and
appends otherwise. -/

/-- `Map.prototype.set`. -/
def mapSet {α : Type} : List (String × α) → String → α → List (String × α)
  | [], k, v => [(k, v)]
  | (k0, v0) :: rest, k, v =>
      if k0 = k then (k0, v) :: rest else (k0, v0) :: mapSet rest k v

/-- `Map.prototype.get` (first binding). -/
def mapGet {α : Type} : List (String × α) → String → Option α
  | [], _ => none
  | (k0, v0) :: rest, k => if k0 = k then some v0 else mapGet rest k

/-- `Map.prototype.delete`. -/
def mapDelete {α : Type} (m : List (String × α)) (k : String) : List (String × α) :=
  m.filter (fun p => p.1 ≠ k)

/-- The memory backend state: the `jobs` map and the `outputStreams` map. -/
structure Store where
  jobs : List (String × Job)
  streams : List (String × StreamSt)
deriving DecidableEq, Repr

/-- Sort key used by the eviction scan: `a[1].finishedAt - b[1].finishedAt`
with JS coercing `null` to `0`. -/
def finKey (j : Job) : Nat := j.finishedAt.getD 0

/-- Whether a job is an eviction candidate (`status === 'completed' ||
status === 'failed'`). -/
def isEvictable (j : Job) : Bool := j.status = .completed || j.status = .failed

/-- Head of the stable ascending sort of the candidates by `finKey`, computed
directly: the first candidate attaining the minimal key (stable sort keeps the
earlier element on ties, so its head is the first minimum in insertion
order). -/
def selectOldest : List (String × Job) → Option (String × Job)
  | [] => none
  | p :: rest =>
      match selectOldest rest with
      | none => some p
      | some q => if finKey q.2 < finKey p.2 then some q else some p

/-- Shallow embedding of the memory backend `createJob` (storage-service.js,
lines 35-53): at or above capacity it deletes the oldest completed/failed job
and its stream before inserting, or fails with the capacity error when no
candidate exists. -/
def storageCreateJob (maxJobs : Nat) (st : Store) (j : Job) : Except String Store :=
  if maxJobs ≤ st.jobs.length then
    match selectOldest (st.jobs.filter (fun p => isEvictable p.2)) with
    | some (oldestId, _) =>
        .ok { jobs := mapSet (mapDelete st.jobs oldestId) j.id j
            , streams := mapDelete st.streams oldestId }
    | none => .error "Maximum job limit reached"
  else
    .ok { st with jobs := mapSet st.jobs j.id j }

/-- JS `Array.prototype.slice(-max)`: `slice(-0)` is `slice(0)` (the whole
array); for positive `max` it keeps the last `max` elements. -/
def jsSliceNeg {α : Type} (max : Nat) (l : List α) : List α :=
  if max = 0 then l else l.drop (l.length - max)

/-- The trimming step of `addOutputChunk`: after the push, if the length
exceeds `maxOutputChunks` the list is replaced by `slice(-maxOutputChunks)`. -/
def trimChunks (maxC : Nat) (l : List Chunk) : List Chunk :=
  if maxC < l.length then jsSliceNeg maxC l else l

/-- Shallow embedding of the memory backend `addOutputChunk`
(storage-service.js, lines 108-141): appends to the stream (auto-creating it
when absent) and to the job `outputHistory` when the job exists, trimming both
to `maxOutputChunks`.  `now` stands for the `Date.now()` used for
`lastUpdate`. -/
def addOutputChunk (maxC : Nat) (st : Store) (jid : String) (c : Chunk) (now : Nat) : Store :=
  let streams :=
    match mapGet st.streams jid with
    | none => mapSet st.streams jid { chunks := [c], lastUpdate := now }
    | some s =>
        mapSet st.streams jid
          { chunks := trimChunks maxC (s.chunks ++ [c]), lastUpdate := now }
  let jobs :=
    match mapGet st.jobs jid with
    | none => st.jobs
    | some j =>
        mapSet st.jobs jid
          { j with outputHistory := trimChunks maxC (j.outputHistory ++ [c]) }
  { jobs := jobs, streams := streams }

/-- Folding a sequence of `addOutputChunk` calls for one job (each call uses
the chunk timestamp as its `Date.now()`). -/
def foldAdd (maxC : Nat) (st : Store) (jid : String) (cs : List Chunk) : Store :=
  cs.foldl (fun s c => addOutputChunk maxC s jid c c.timestamp) st

/-- The last `n` elements of a list, in order. -/
def takeLast {α : Type} (n : Nat) (l : List α) : List α :=
  l.drop (l.length - n)

/-! ## Orchestrator createJob (src/packages/api/services/job-service.ts)

`createJob(prompt, jobOptions, jobId)` selects `jobId || generateJobId()`,
rejects a duplicate only when `jobId` is truthy, then writes the pending job
and its output stream and schedules the background task (the scheduled task is
modelled separately by the interleaving system below).  `now`/`rand` stand for
the `Date.now()` and random suffix consumed by `generateJobId`. -/

/-- `generateJobId`: `job_<unix-ms>_<random-suffix>`. -/
def generateJobId (now : Nat) (rand : String) : String :=
  "job_" ++ toString now ++ "_" ++ rand

/-- JS truthiness of the optional `jobId` argument (`null` and the empty
string are falsy). -/
def jsTruthyId : Option String → Bool
  | some s => s ≠ ""
  | none => false

/-- The fresh job record written by `createJob`. -/
def freshJob (id prompt : String) (now : Nat) : Job :=
  { id := id, prompt := prompt, status := .pending, progress := ""
  , completeMessage := "", startedAt := now, finishedAt := none
  , processAttached := false, outputHistory := [] }

/-- Shallow embedding of the orchestrator `createJob` (job-service.ts, lines
28-58) up to the scheduling of the background task, threading the store so
that the error paths demonstrably leave it untouched.  Returns the created job
id on success. -/
def svcCreateJob (maxJobs : Nat) (st : Store) (prompt : String)
    (suppliedId : Option String) (now : Nat) (rand : String) :
    Except String String × Store :=
  let id :=
    match suppliedId with
    | some s => if s = "" then generateJobId now rand else s
    | none => generateJobId now rand
  if jsTruthyId suppliedId ∧ (mapGet st.jobs id).isSome then
    (.error "Job ID already exists", st)
  else
    match storageCreateJob maxJobs st (freshJob id prompt now) with
    | .error e => (.error e, st)
    | .ok st1 =>
        (.ok id, { st1 with streams := mapSet st1.streams id { chunks := [], lastUpdate := now } })

/-! ## Interleaving model of the per-job orchestrator
(src/packages/api/services/job-service.ts)

One job, created by `createJob`, is tracked through the concurrent execution
of its background task (`processJobInBackground` + `processOutputStreams`),
any number of `terminateJob` calls and any number of `deleteJob` calls.  Tasks
advance in atomic segments delimited by the `await` points of the source;
between two awaited operations no other task can interleave (single-threaded
event loop), and the nondeterministic scheduler here over-approximates the
real event-loop schedules.  `storage.getJob` returns the stored object by
reference while `storage.updateJob` replaces the stored entry by a fresh merged
copy, so a task that read the job before another task's update holds a stale
snapshot; `terminateJob`'s writes therefore use the snapshot taken at its
`getJob`, as the source does.  The sub-awaits inside `storeAndLogOutput` and
inside `completeJob` are collapsed into one segment each; none of the collapsed
sub-steps writes `status` or `finishedAt`. -/

/-- Observable write/signal events, in program order. -/
inductive Ev where
  | wroteStatus (s : Status)
  | killSignal
deriving DecidableEq, Repr

/-- Outcome of one `terminateJob` call. -/
inductive TermRes where
  | notFound
  | invalidState
  | success
  | killFailed
  | noProcess
  | storeMissing
deriving DecidableEq, Repr

/-- Program counter of an in-flight `terminateJob` call.  `check` holds the
job snapshot returned by its `getJob`; `doKill` holds the locally mutated
snapshot (status already set to `terminating`). -/
inductive TermPC where
  | check (snap : Job)
  | doKill (snap : Job)
  | finalize
  | done (r : TermRes)
deriving DecidableEq, Repr

/-- An in-flight `terminateJob` call; `killWorks` resolves whether
`process.kill` returns normally or throws (the mock kill always returns
normally). -/
structure TermTask where
  killWorks : Bool
  pc : TermPC
deriving DecidableEq, Repr

/-- Program counter of an in-flight `deleteJob` call, holding the snapshot
from its `getJob`; `done true` is the idempotent/deleted success, `done false`
the invalid-state rejection on a running job. -/
inductive DelPC where
  | act (snap : Option Job)
  | done (ok : Bool)
deriving DecidableEq, Repr

/-- Program counter of the background task.  `setRunning` through `finalize`
are the segments of `processJobInBackground` in source order; `draining` is
the suspension on `Promise.all` of the two stream loops; `failCatch` is its
catch block. -/
inductive BgPC where
  | setRunning
  | startProc
  | storeHandle
  | draining
  | awaitExit
  | checkExists
  | clearHandle
  | finalize
  | failCatch (msg : String)
  | done
deriving DecidableEq, Repr

/-- Whole-system state for the single tracked job: its registry entry and
output stream (the two storage maps restricted to this job id), the task
program counters, the not-yet-delivered stream texts of the adapter handle,
the exit code the handle will deliver, a step counter serving as the clock for
`Date.now()`, and the event log. -/
structure SysState where
  job : Option Job
  stream : Option StreamSt
  bg : BgPC
  terms : List TermTask
  dels : List DelPC
  pendingOut : List String
  pendingErr : List String
  exitCode : Nat
  clock : Nat
  events : List Ev
deriving DecidableEq, Repr

/-- `storage.addOutputChunk` for the tracked job: append to the stream
(auto-creating it when absent) and to the job history when the job exists,
trimming both to `maxOutputChunks`. -/
def sysAddChunk (maxC : Nat) (s : SysState) (text : String) (ct : CType) : SysState :=
  let c : Chunk := { text := text, ctype := ct, timestamp := s.clock }
  let stream :=
    match s.stream with
    | none => some { chunks := [c], lastUpdate := s.clock }
    | some st => some { chunks := trimChunks maxC (st.chunks ++ [c]), lastUpdate := s.clock }
  let job :=
    match s.job with
    | none => s.job
    | some j => some { j with outputHistory := trimChunks maxC (j.outputHistory ++ [c]) }
  { s with stream := stream, job := job }

/-- `storeAndLogOutput`: store the chunk, then re-read the job and append the
text to its `progress` when it still exists (console mirroring has no state). -/
def storeAndLog (maxC : Nat) (s : SysState) (text : String) (ct : CType) : SysState :=
  let s1 := sysAddChunk maxC s text ct
  match s1.job with
  | none => s1
  | some j => { s1 with job := some { j with progress := j.progress ++ text } }

/-- `completeJob(jobId, status, additionalMessage)` (job-service.ts, lines
238-255): no-op when the job is gone; otherwise store the system banner chunk
and write `status`, `completeMessage` and `finishedAt` in one `updateJob`. -/
def sysCompleteJob (maxC : Nat) (s : SysState) (st : Status) (additional : String) : SysState :=
  match s.job with
  | none => s
  | some j =>
      let banner :=
        if st = .completed then "\n--- Process completed successfully ---"
        else "\n--- Process failed" ++ (if additional = "" then "" else ": " ++ additional) ++ " ---"
      let s1 := sysAddChunk maxC s banner .system
      match s1.job with
      | none => s1
      | some j1 =>
          { s1 with
            job := some
              { j1 with
                status := st,
                completeMessage := j.progress ++ (if additional = "" then "" else "\n" ++ additional),
                finishedAt := some s.clock },
            events := s1.events ++ [.wroteStatus st] }

/-- One segment of the background task. -/
def stepBg (maxC : Nat) (s : SysState) : Option SysState :=
  match s.bg with
  | .setRunning =>
      -- `updateJob(jobId, {status: 'running'})`; when the job was deleted the
      -- update throws, the catch re-reads the job, finds nothing and rethrows
      -- into the logged-and-swallowed `.catch` of `createJob`.
      match s.job with
      | none => some { s with bg := .done }
      | some j =>
          some { s with
                 job := some { j with status := .running },
                 bg := .startProc,
                 events := s.events ++ [.wroteStatus .running] }
  | .startProc =>
      -- `claudeService.startProcess` returned a handle.
      some { s with bg := .storeHandle }
  | .storeHandle =>
      -- `updateJob(jobId, {process: claudeHandle, status: 'running'})`.
      match s.job with
      | none => some { s with bg := .done }
      | some j =>
          some { s with
                 job := some { j with processAttached := true, status := .running },
                 bg := .draining,
                 events := s.events ++ [.wroteStatus .running] }
  | .draining =>
      -- `Promise.all([stdoutPromise, stderrPromise])` resolves once both
      -- streams are exhausted.
      if s.pendingOut = [] ∧ s.pendingErr = [] then some { s with bg := .awaitExit } else none
  | .awaitExit =>
      -- `await claudeHandle.exited` resolves.
      some { s with bg := .checkExists }
  | .checkExists =>
      -- re-check the job still exists; exit silently when it was deleted.
      match s.job with
      | none => some { s with bg := .done }
      | some _ => some { s with bg := .clearHandle }
  | .clearHandle =>
      -- `updateJob(jobId, {process: null})`.
      match s.job with
      | none => some { s with bg := .done }
      | some j => some { s with job := some { j with processAttached := false }, bg := .finalize }
  | .finalize =>
      -- exit code 0 -> completed, otherwise failed with the code as reason.
      some { (sysCompleteJob maxC s
                (if s.exitCode = 0 then .completed else .failed)
                (if s.exitCode = 0 then "" else "Process exited with code " ++ toString s.exitCode))
             with bg := .done }
  | .failCatch msg =>
      -- catch block: complete as failed when the job still exists.
      match s.job with
      | none => some { s with bg := .done }
      | some _ => some { (sysCompleteJob maxC s .failed msg) with bg := .done }
  | .done => none

/-- One stdout stream-loop iteration storing the next extracted text. -/
def stepOut (maxC : Nat) (s : SysState) : Option SysState :=
  match s.bg, s.pendingOut with
  | .draining, t :: rest => some { (storeAndLog maxC s t .stdout) with pendingOut := rest }
  | _, _ => none

/-- One stderr stream-loop iteration storing the next decoded chunk verbatim. -/
def stepErr (maxC : Nat) (s : SysState) : Option SysState :=
  match s.bg, s.pendingErr with
  | .draining, t :: rest => some { (storeAndLog maxC s t .stderr) with pendingErr := rest }
  | _, _ => none

/-- Arrival of a `terminateJob` call: its `getJob` runs synchronously at the
call, capturing the snapshot (or resolving not-found). -/
def doSpawnTerm (s : SysState) (kw : Bool) : SysState :=
  match s.job with
  | none => { s with terms := s.terms ++ [{ killWorks := kw, pc := .done .notFound }] }
  | some j => { s with terms := s.terms ++ [{ killWorks := kw, pc := .check j }] }

/-- One segment of an in-flight `terminateJob` (job-service.ts, lines
333-365), returning the new program counter and state. -/
def termSeg (maxC : Nat) (s : SysState) (t : TermTask) : TermPC × SysState :=
  match t.pc with
  | .check snap =>
      if snap.status ≠ .running then (.done .invalidState, s)
      else
        match s.job with
        | none => (.done .storeMissing, s)
        | some _ =>
            -- `job.status = 'terminating'; await storage.updateJob(jobId, job)`
            let snap1 := { snap with status := .terminating }
            (.doKill snap1,
             { s with
               job := some snap1,
               events := s.events ++ [.wroteStatus .terminating] })
  | .doKill snap =>
      if snap.processAttached then
        if t.killWorks then
          (.finalize, { s with events := s.events ++ [.killSignal] })
        else
          -- kill threw: revert the full local record to running and rethrow.
          match s.job with
          | none => (.done .storeMissing, { s with events := s.events ++ [.killSignal] })
          | some _ =>
              (.done .killFailed,
               { s with
                 job := some { snap with status := .running },
                 events := s.events ++ [.killSignal, .wroteStatus .running] })
      else
        -- no attached process handle: revert to running and throw.
        match s.job with
        | none => (.done .storeMissing, s)
        | some _ =>
            (.done .noProcess,
             { s with
               job := some { snap with status := .running },
               events := s.events ++ [.wroteStatus .running] })
  | .finalize =>
      (.done .success, sysCompleteJob maxC s .terminated "Process terminated by user")
  | .done r => (.done r, s)

/-- Advance terminate call `i` by one segment (a finished call stutters). -/
def stepTermAt (maxC : Nat) (s : SysState) (i : Nat) : Option SysState :=
  match s.terms.get? i with
  | none => none
  | some t =>
      let (pc, s1) := termSeg maxC s t
      some { s1 with terms := s1.terms.set i { t with pc := pc } }

/-- Arrival of a `deleteJob` call, capturing its `getJob` snapshot. -/
def doSpawnDel (s : SysState) : SysState :=
  { s with dels := s.dels ++ [.act s.job] }

/-- The acting segment of `deleteJob` (job-service.ts, lines 370-383):
idempotent success on an absent job, invalid-state rejection on a running
one, otherwise `storage.deleteJob` removes the job and its stream. -/
def stepDelAt (s : SysState) (i : Nat) : Option SysState :=
  match s.dels.get? i with
  | none => none
  | some (.done _) => some s
  | some (.act none) => some { s with dels := s.dels.set i (.done true) }
  | some (.act (some j)) =>
      if j.status = .running then some { s with dels := s.dels.set i (.done false) }
      else some { s with job := none, stream := none, dels := s.dels.set i (.done true) }

/-- Scheduler actions. -/
inductive Act where
  | bg
  | bgStartFail (msg : String)
  | outStep
  | errStep
  | spawnTerm (killWorks : Bool)
  | termStep (i : Nat)
  | spawnDel
  | delStep (i : Nat)
deriving DecidableEq, Repr

/-- One scheduler step; `none` when the action is not enabled.  The clock
advances with every step. -/
def step (maxC : Nat) (s : SysState) (a : Act) : Option SysState :=
  Option.map (fun s1 => { s1 with clock := s.clock + 1 })
    (match a with
     | .bg => stepBg maxC s
     | .bgStartFail msg =>
         if s.bg = BgPC.startProc then some { s with bg := .failCatch msg } else none
     | .outStep => stepOut maxC s
     | .errStep => stepErr maxC s
     | .spawnTerm kw => some (doSpawnTerm s kw)
     | .termStep i => stepTermAt maxC s i
     | .spawnDel => some (doSpawnDel s)
     | .delStep i => stepDelAt s i)

/-- State right after `createJob` returned: pending job, empty stream,
background task scheduled, adapter outputs not yet delivered. -/
def initState (id prompt : String) (outs errs : List String) (exit : Nat) : SysState :=
  { job := some (freshJob id prompt 0)
  , stream := some { chunks := [], lastUpdate := 0 }
  , bg := .setRunning
  , terms := []
  , dels := []
  , pendingOut := outs
  , pendingErr := errs
  , exitCode := exit
  , clock := 1
  , events := [] }

/-- Reachability from a start state under the nondeterministic scheduler. -/
inductive Reach (maxC : Nat) (s0 : SysState) : SysState → Prop where
  | refl : Reach maxC s0 s0
  | tail {s s' : SysState} {a : Act} :
      Reach maxC s0 s → step maxC s a = some s' → Reach maxC s0 s'

/-- Run an explicit schedule. -/
def runTrace (maxC : Nat) : SysState → List Act → Option SysState
  | s, [] => some s
  | s, a :: rest =>
      match step maxC s a with
      | none => none
      | some s1 => runTrace maxC s1 rest

/-- The stream texts the stdout pipeline stores for a mock script: each
protocol line is parsed, and each truthy extracted text is stored with a
newline appended (`storeAndLogOutput(humanText + '\n', 'stdout')`). -/
def extractedOutputs (r : MockResponse) : List String :=
  r.chunks.filterMap (fun v =>
    match parseClaudeJsonOutputVal v with
    | some t => if t = "" then none else some (t ++ "\n")
    | none => none)

/-- Initial system state for a job running a given mock script. -/
def initMock (id prompt : String) (r : MockResponse) : SysState :=
  initState id prompt (extractedOutputs r) r.errorChunks r.exitCode

/-! ## Sequential drivers and invariant predicates used in the theorems -/

/-- A single `terminateJob` call running without interference from any other
task: its arrival followed by its at most three segments (a finished call
stutters). -/
def runTerminate (maxC : Nat) (s : SysState) (kw : Bool) : Option SysState :=
  runTrace maxC s
    [.spawnTerm kw, .termStep s.terms.length, .termStep s.terms.length, .termStep s.terms.length]

/-- Outcome of terminate call `i`, once finished. -/
def termResultAt (s : SysState) (i : Nat) : Option TermRes :=
  match s.terms.get? i with
  | some t =>
      match t.pc with
      | .done r => some r
      | _ => none
  | none => none

/-- A single `deleteJob` call running without interference. -/
def runDelete (maxC : Nat) (s : SysState) : Option SysState :=
  runTrace maxC s [.spawnDel, .delStep s.dels.length]

/-- Outcome of delete call `i` (`true` = success, `false` = the invalid-state
rejection of a running job). -/
def delResultAt (s : SysState) (i : Nat) : Option Bool :=
  match s.dels.get? i with
  | some (.done b) => some b
  | _ => none

/-- A terminal job status. -/
def isTerminal (st : Status) : Prop :=
  st = .completed ∨ st = .failed ∨ st = .terminated

/-- Constraint on an in-flight terminate call while the tracked job is still
`pending`: it can only be a finished call or one whose snapshot fails the
`running` check (it was spawned while the job was pending, so it will reject
with invalid-state without writing). -/
def termPendOK (t : TermTask) : Prop :=
  match t.pc with
  | .check snap => snap.status ≠ .running
  | .doKill _ => False
  | .finalize => False
  | .done _ => True

/-- Invariant: while the job is still `pending`, the background task has not
advanced past its first segment and no terminate call is in a position to
write. -/
def PendInv (s : SysState) : Prop :=
  ∀ j, s.job = some j → j.status = .pending →
    s.bg = .setRunning ∧ ∀ t ∈ s.terms, termPendOK t

/-! Concrete schedules used by the counterexample theorems and witnesses.
Every one of them is a real event-loop schedule: a terminate request may
arrive while the background task is parked on a stream-chunk timer or on the
exit timer of the (mock) process handle, and the terminate call then runs all
its segments as consecutive microtasks before the parked timer fires. -/

/-- Start the job, store one stdout chunk, finish both drains, then — while
the background task awaits the exit promise — run a full successful
`terminateJob`. -/
def schedTermDuringExitWait : List Act :=
  [.bg, .bg, .bg, .outStep, .bg, .spawnTerm true, .termStep 0, .termStep 0, .termStep 0]

/-- Continuation: the exit promise (exit code 0) resolves and the background
task finalizes. -/
def schedBgFinalize : List Act := [.bg, .bg, .bg, .bg]

/-- Start the job, store the first of two stdout chunks, then run a full
successful `terminateJob` between the two chunk timers. -/
def schedTermBetweenChunks : List Act :=
  [.bg, .bg, .bg, .outStep, .spawnTerm true, .termStep 0, .termStep 0, .termStep 0]

/-- An undisturbed full run of the background task over a mock script with
one stdout and one stderr chunk. -/
def schedMockErrorRun : List Act :=
  [.bg, .bg, .bg, .outStep, .errStep, .bg, .bg, .bg, .bg, .bg]

/-- An undisturbed full run with no stream chunks (exit code 0). -/
def schedPlainRun : List Act := [.bg, .bg, .bg, .bg, .bg, .bg, .bg, .bg]

/-! Concrete data for witnesses. -/

/-- A registry with one fresh job and its empty stream, for witnesses. -/
def wJob : Job := freshJob "a" "p" 0

/-- See `wJob`. -/
def wStore : Store :=
  { jobs := [("a", wJob)], streams := [("a", { chunks := [], lastUpdate := 0 })] }

/-- A concrete chunk for witnesses. -/
def wChunk (t : Nat) : Chunk := { text := "x", ctype := .stdout, timestamp := t }

/-- Three concrete chunks for witnesses. -/
def wChunks : List Chunk := [wChunk 1, wChunk 2, wChunk 3]

/-- A completed job occupying the only slot of a full registry, for the C5
witness. -/
def wOldJob : Job := { wJob with status := .completed, finishedAt := some 7 }

/-- A running job with an attached process handle, for witnesses. -/
def wRunJob : Job := { freshJob "a" "p" 0 with status := .running, processAttached := true }

/-- A quiescent system state holding `wRunJob` (background task parked on the
exit promise), for witnesses. -/
def wRunState : SysState :=
  { job := some wRunJob
  , stream := some { chunks := [], lastUpdate := 0 }
  , bg := .awaitExit
  , terms := []
  , dels := []
  , pendingOut := []
  , pendingErr := []
  , exitCode := 0
  , clock := 5
  , events := [] }

/-- See `wOldJob`. -/
def wFullStore : Store :=
  { jobs := [("old", wOldJob)], streams := [("old", { chunks := [], lastUpdate := 0 })] }

/-- The state one scheduler step (the background task setting `running`)
after `initState "w" "p" [] [] 0`. -/
def c2After : SysState :=
  { job := some { freshJob "w" "p" 0 with status := .running }
  , stream := some { chunks := [], lastUpdate := 0 }
  , bg := .startProc
  , terms := []
  , dels := []
  , pendingOut := []
  , pendingErr := []
  , exitCode := 0
  , clock := 2
  , events := [.wroteStatus .running] }

/-- The job after an undisturbed chunk-free run to completion. -/
def c3FinalJob : Job :=
  { id := "w", prompt := "p", status := .completed, progress := ""
  , completeMessage := "", startedAt := 0, finishedAt := some 8
  , processAttached := false
  , outputHistory :=
      [{ text := "\n--- Process completed successfully ---", ctype := .system, timestamp := 8 }] }

/-- The full system state reached by `schedPlainRun` from
`initState "w" "p" [] [] 0`. -/
def c3FinalState : SysState :=
  { job := some c3FinalJob
  , stream := some
      { chunks :=
          [{ text := "\n--- Process completed successfully ---", ctype := .system, timestamp := 8 }]
      , lastUpdate := 8 }
  , bg := .done
  , terms := []
  , dels := []
  , pendingOut := []
  , pendingErr := []
  , exitCode := 0
  , clock := 9
  , events := [.wroteStatus .running, .wroteStatus .running, .wroteStatus .completed] }

/-! # Theorems -/

/-! ## C1 — protocol-line text extraction -/

/-- C1 (corrected, counterexample): the claim says extraction concatenates the
first text item and the immediately following text-type items, stopping at the
first non-text item.  On the line whose content is
`[text "a", tool_use, text "b"]` the source concatenates ALL text items and
returns "ab", while the stop-at-first-non-text rule of the claim yields "a". -/
theorem claim_C1_counterexample :
    parseClaudeJsonOutputVal
        (mkAssistantLine [mkTextItem "a", mkToolUseItem, mkTextItem "b"]) = some "ab" ∧
    specStopAtFirstNonText [mkTextItem "a", mkToolUseItem, mkTextItem "b"] = some "a" ∧
    parseClaudeJsonOutputVal
        (mkAssistantLine [mkTextItem "a", mkToolUseItem, mkTextItem "b"]) ≠
      specStopAtFirstNonText [mkTextItem "a", mkToolUseItem, mkTextItem "b"] := by
  refine ⟨by decide, by decide, by decide⟩

/-- C1 (amended): for every protocol line of type "assistant" whose
`content[0]` is text-typed, `parseClaudeJsonOutput` returns the concatenation
of the texts of ALL text-typed items of the content array (non-text items are
skipped, not scan-stopping); for every line whose first content item is not
text-typed it extracts no text. -/
theorem claim_C1 (first : JVal) (rest : List JVal) :
    (isTextItem first = true →
      parseClaudeJsonOutputVal (mkAssistantLine (first :: rest)) =
        some (String.join
          (((first :: rest).filter (fun it => isTextItem it)).map textOfItem))) ∧
    (isTextItem first = false →
      parseClaudeJsonOutputVal (mkAssistantLine (first :: rest)) = none) := by
  constructor <;> intro h <;>
    simp [parseClaudeJsonOutputVal, parseGuard, contentOf, mkAssistantLine,
      JVal.get, lookupField, JVal.index0, h]

/-- C1 witness: the amended theorem applied to a concrete line. -/
theorem claim_C1_witness :
    isTextItem (mkTextItem "hi") = true ∧
    parseClaudeJsonOutputVal (mkAssistantLine [mkTextItem "hi", mkToolUseItem]) = some "hi" :=
  ⟨by decide, by
    have h := (claim_C1 (mkTextItem "hi") [mkToolUseItem]).1 (by decide)
    exact h.trans (by decide)⟩

/-! ## C4 — bounded output chunks (helper lemmas, then the claim) -/

theorem mapGet_mapSet_same {α : Type} (m : List (String × α)) (k : String) (v : α) :
    mapGet (mapSet m k v) k = some v := by
  induction m with
  | nil => simp [mapSet, mapGet]
  | cons p rest ih =>
      obtain ⟨k0, v0⟩ := p
      by_cases h : k0 = k <;> simp [mapSet, mapGet, h, ih]

theorem takeLast_length_le {α : Type} (n : Nat) (l : List α) :
    (takeLast n l).length ≤ n := by
  simp [takeLast]
  omega

theorem takeLast_nil {α : Type} (n : Nat) : takeLast n ([] : List α) = [] := by
  simp [takeLast]

theorem trimChunks_eq_takeLast (maxC : Nat) (h : 1 ≤ maxC) (l : List Chunk) :
    trimChunks maxC l = takeLast maxC l := by
  unfold trimChunks jsSliceNeg takeLast
  by_cases hlt : maxC < l.length
  · rw [if_pos hlt, if_neg (by omega)]
  · rw [if_neg hlt]
    have h0 : l.length - maxC = 0 := by omega
    rw [h0, List.drop_zero]

theorem takeLast_append {α : Type} (m : Nat) (xs ys : List α) :
    takeLast m (takeLast m xs ++ ys) = takeLast m (xs ++ ys) := by
  unfold takeLast
  rcases le_or_lt xs.length m with h | h
  · have h0 : xs.length - m = 0 := by omega
    simp [h0]
  · have hlen : (xs.drop (xs.length - m)).length = m := by
      simp
      omega
    rw [List.drop_append_eq_append_drop, List.drop_append_eq_append_drop, List.drop_drop,
      hlen, List.length_append, List.length_append, hlen]
    have e1 : xs.length - m + (m + ys.length - m) = xs.length + ys.length - m := by omega
    have e2 : m + ys.length - m - m = xs.length + ys.length - m - xs.length := by omega
    rw [e1, e2]

theorem foldAdd_invariant (maxC : Nat) (h1 : 1 ≤ maxC) (jid : String) :
    ∀ (cs : List Chunk) (st : Store) (acc : List Chunk) (lu : Nat) (j : Job),
      mapGet st.streams jid = some { chunks := takeLast maxC acc, lastUpdate := lu } →
      mapGet st.jobs jid = some j →
      j.outputHistory = takeLast maxC acc →
      ∃ lu2 j2,
        mapGet (foldAdd maxC st jid cs).streams jid =
          some { chunks := takeLast maxC (acc ++ cs), lastUpdate := lu2 } ∧
        mapGet (foldAdd maxC st jid cs).jobs jid = some j2 ∧
        j2.outputHistory = takeLast maxC (acc ++ cs) := by
  intro cs
  induction cs with
  | nil =>
      intro st acc lu j hs hj hh
      exact ⟨lu, j, by simpa [foldAdd] using hs, by simpa [foldAdd] using hj, by simpa using hh⟩
  | cons c rest ih =>
      intro st acc lu j hs hj hh
      have hstep :
          foldAdd maxC st jid (c :: rest) =
            foldAdd maxC (addOutputChunk maxC st jid c c.timestamp) jid rest := by
        simp [foldAdd]
      rw [hstep]
      have hadd :
          mapGet (addOutputChunk maxC st jid c c.timestamp).streams jid =
            some { chunks := takeLast maxC (acc ++ [c]), lastUpdate := c.timestamp } ∧
          mapGet (addOutputChunk maxC st jid c c.timestamp).jobs jid =
            some { j with outputHistory := takeLast maxC (acc ++ [c]) } := by
        constructor
        · simp only [addOutputChunk, hs, hj]
          rw [trimChunks_eq_takeLast maxC h1, takeLast_append]
          exact mapGet_mapSet_same _ _ _
        · simp only [addOutputChunk, hs, hj]
          have e : trimChunks maxC (j.outputHistory ++ [c]) = takeLast maxC (acc ++ [c]) := by
            rw [trimChunks_eq_takeLast maxC h1, hh, takeLast_append]
          rw [e]
          exact mapGet_mapSet_same _ _ _
      obtain ⟨ha, hb⟩ := hadd
      have := ih (addOutputChunk maxC st jid c c.timestamp) (acc ++ [c]) c.timestamp
        { j with outputHistory := takeLast maxC (acc ++ [c]) } ha hb rfl
      simpa [List.append_assoc] using this

/-- C4 (confirmed, for a positive configured `maxOutputChunks`; the default is
1000): starting from a job with empty history and its created (empty) output
stream, after any sequence of `addOutputChunk` calls — examined at every
prefix, so at all times — both the stream chunk list and the job
`outputHistory` equal the most recently appended `maxOutputChunks` chunks in
original append order, and in particular never exceed that bound. -/
theorem claim_C4 (maxC : Nat) (h1 : 1 ≤ maxC) (jid : String) (lu : Nat) (j0 : Job)
    (st0 : Store)
    (hs : mapGet st0.streams jid = some { chunks := [], lastUpdate := lu })
    (hj : mapGet st0.jobs jid = some j0)
    (hh : j0.outputHistory = [])
    (cs : List Chunk) (n : Nat) :
    ((mapGet (foldAdd maxC st0 jid (cs.take n)).streams jid).map StreamSt.chunks =
       some (takeLast maxC (cs.take n))) ∧
    ((mapGet (foldAdd maxC st0 jid (cs.take n)).jobs jid).map Job.outputHistory =
       some (takeLast maxC (cs.take n))) ∧
    (takeLast maxC (cs.take n)).length ≤ maxC := by
  have h0 : mapGet st0.streams jid =
      some { chunks := takeLast maxC [], lastUpdate := lu } := by
    rw [takeLast_nil]
    exact hs
  have hh0 : j0.outputHistory = takeLast maxC [] := by
    rw [takeLast_nil]
    exact hh
  obtain ⟨lu2, j2, h2s, h2j, h2h⟩ :=
    foldAdd_invariant maxC h1 jid (cs.take n) st0 [] lu j0 h0 hj hh0
  refine ⟨?_, ?_, takeLast_length_le _ _⟩
  · rw [h2s]
    simp
  · rw [h2j]
    simp [h2h]

/-- C4 witness: three chunks through a bound of two keep exactly the last
two. -/
theorem claim_C4_witness :
    (1 : Nat) ≤ 2 ∧
    ((mapGet (foldAdd 2 wStore "a" (wChunks.take 3)).streams "a").map StreamSt.chunks =
       some (takeLast 2 (wChunks.take 3))) ∧
    takeLast 2 (wChunks.take 3) = [wChunk 2, wChunk 3] :=
  ⟨by decide,
   (claim_C4 2 (by decide) "a" 0 wJob wStore rfl rfl rfl wChunks 3).1,
   by decide⟩

/-! ## C5 — registry capacity eviction -/

theorem selectOldest_none_iff (l : List (String × Job)) :
    selectOldest l = none ↔ l = [] := by
  cases l with
  | nil => simp [selectOldest]
  | cons q rest =>
      simp only [selectOldest]
      cases selectOldest rest with
      | none => simp
      | some r =>
          by_cases hc : finKey r.2 < finKey q.2 <;> simp [hc]

theorem selectOldest_mem (l : List (String × Job)) :
    ∀ p, selectOldest l = some p → p ∈ l := by
  induction l with
  | nil => intro p h; simp [selectOldest] at h
  | cons q rest ih =>
      intro p h
      simp only [selectOldest] at h
      cases hro : selectOldest rest with
      | none =>
          simp only [hro] at h
          simp at h
          simp [h]
      | some r =>
          simp only [hro] at h
          by_cases hc : finKey r.2 < finKey q.2
          · rw [if_pos hc] at h
            simp at h
            exact List.mem_cons_of_mem _ (ih p (h ▸ hro))
          · rw [if_neg hc] at h
            simp at h
            simp [h]

theorem selectOldest_min (l : List (String × Job)) :
    ∀ p, selectOldest l = some p → ∀ q ∈ l, finKey p.2 ≤ finKey q.2 := by
  induction l with
  | nil => intro p h; simp [selectOldest] at h
  | cons q rest ih =>
      intro p h
      simp only [selectOldest] at h
      cases hro : selectOldest rest with
      | none =>
          simp only [hro] at h
          have hrest : rest = [] := (selectOldest_none_iff rest).mp hro
          simp at h
          subst hrest
          simp [h]
      | some r =>
          simp only [hro] at h
          intro x hx
          rcases List.mem_cons.mp hx with hx | hx
          · subst hx
            by_cases hc : finKey r.2 < finKey x.2
            · rw [if_pos hc] at h
              simp at h
              subst h
              exact Nat.le_of_lt hc
            · rw [if_neg hc] at h
              simp at h
              subst h
              exact Nat.le_refl _
          · by_cases hc : finKey r.2 < finKey q.2
            · rw [if_pos hc] at h
              simp at h
              subst h
              exact ih r hro x hx
            · rw [if_neg hc] at h
              simp at h
              subst h
              exact Nat.le_trans (Nat.le_of_not_lt hc) (ih r hro x hx)

/-- C5 (confirmed): registry `createJob` inserts when below capacity; at (or
above) capacity it removes exactly the completed/failed job with the smallest
`finishedAt` together with that job's output stream and then inserts; and at
capacity with no completed/failed job it raises the capacity error without
inserting. -/
theorem claim_C5 (maxJobs : Nat) (st : Store) (j : Job) :
    (st.jobs.length < maxJobs →
      storageCreateJob maxJobs st j = .ok { st with jobs := mapSet st.jobs j.id j }) ∧
    (maxJobs ≤ st.jobs.length →
      (∀ p ∈ st.jobs, isEvictable p.2 = false) →
      storageCreateJob maxJobs st j = .error "Maximum job limit reached") ∧
    (maxJobs ≤ st.jobs.length →
      ∀ p, selectOldest (st.jobs.filter (fun q => isEvictable q.2)) = some p →
        p ∈ st.jobs ∧ isEvictable p.2 = true ∧
        (∀ r ∈ st.jobs, isEvictable r.2 = true → finKey p.2 ≤ finKey r.2) ∧
        storageCreateJob maxJobs st j =
          .ok { jobs := mapSet (mapDelete st.jobs p.1) j.id j
              , streams := mapDelete st.streams p.1 }) ∧
    (maxJobs ≤ st.jobs.length →
      st.jobs.filter (fun q => isEvictable q.2) ≠ [] →
      (selectOldest (st.jobs.filter (fun q => isEvictable q.2))).isSome) := by
  refine ⟨?_, ?_, ?_, ?_⟩
  · intro h
    rw [storageCreateJob, if_neg (by omega)]
  · intro hcap hnone
    have hfil : st.jobs.filter (fun q => isEvictable q.2) = [] := by
      rw [List.filter_eq_nil_iff]
      intro a ha
      simp [hnone a ha]
    rw [storageCreateJob, if_pos hcap, hfil]
    simp [selectOldest]
  · intro hcap p hp
    have hmem := selectOldest_mem _ p hp
    have hmem2 := List.mem_filter.mp hmem
    refine ⟨hmem2.1, hmem2.2, ?_, ?_⟩
    · intro r hr hre
      exact selectOldest_min _ p hp r (List.mem_filter.mpr ⟨hr, hre⟩)
    · rw [storageCreateJob, if_pos hcap, hp]
  · intro hcap hne
    cases hsel : selectOldest (st.jobs.filter (fun q => isEvictable q.2)) with
    | none => exact absurd ((selectOldest_none_iff _).mp hsel) hne
    | some p => simp

/-- C5 witness: a full one-slot registry holding a completed job evicts it
(and its stream) to admit the new job. -/
theorem claim_C5_witness :
    (1 : Nat) ≤ wFullStore.jobs.length ∧
    storageCreateJob 1 wFullStore (freshJob "new" "p" 9) =
      .ok { jobs := [("new", freshJob "new" "p" 9)], streams := [] } := by
  refine ⟨by decide, ?_⟩
  have h := (claim_C5 1 wFullStore (freshJob "new" "p" 9)).2.2.1 (by decide)
      ("old", wOldJob) (by decide)
  exact h.2.2.2.trans (by rfl)

/-! ## C6 and C10 — orchestrator createJob id handling -/

theorem storageCreateJob_error_msg (maxJobs : Nat) (st : Store) (j : Job) (e : String)
    (h : storageCreateJob maxJobs st j = .error e) : e = "Maximum job limit reached" := by
  unfold storageCreateJob at h
  by_cases hc : maxJobs ≤ st.jobs.length
  · rw [if_pos hc] at h
    cases hsel : selectOldest (st.jobs.filter (fun p => isEvictable p.2)) with
    | none =>
        rw [hsel] at h
        simp at h
        exact h.symm
    | some p =>
        rw [hsel] at h
        simp at h
  · rw [if_neg hc] at h
    simp at h

/-- C6 (confirmed): calling the orchestrator `createJob` with a non-empty
caller-supplied id equal to an existing job id raises the conflict error
before any write, so the call returns the unchanged store and the stored job
keeps all its fields. -/
theorem claim_C6 (maxJobs : Nat) (st : Store) (prompt x : String) (hx : x ≠ "")
    (jx : Job) (hgx : mapGet st.jobs x = some jx) (now : Nat) (rand : String) :
    svcCreateJob maxJobs st prompt (some x) now rand = (.error "Job ID already exists", st) ∧
    mapGet (svcCreateJob maxJobs st prompt (some x) now rand).2.jobs x = some jx := by
  have h1 : svcCreateJob maxJobs st prompt (some x) now rand =
      (.error "Job ID already exists", st) := by
    simp [svcCreateJob, jsTruthyId, hx, hgx]
  refine ⟨h1, ?_⟩
  rw [h1]
  exact hgx

/-- C6 witness: the conflict on a concrete store. -/
theorem claim_C6_witness :
    ("a" : String) ≠ "" ∧
    svcCreateJob 10 wStore "q" (some "a") 5 "zz" = (.error "Job ID already exists", wStore) :=
  ⟨by decide, (claim_C6 10 wStore "q" "a" (by decide) wJob rfl 5 "zz").1⟩

/-- C10 (confirmed): a caller-supplied empty-string id is falsy, so the
duplicate check is skipped and the generated `job_<unix-ms>_<random-suffix>`
id is used; the call behaves exactly as if no id were supplied and can never
raise the conflict error, even when a stored job has the empty string as its
id. -/
theorem claim_C10 (maxJobs : Nat) (st : Store) (prompt : String) (now : Nat) (rand : String) :
    ((svcCreateJob maxJobs st prompt (some "") now rand).1 ≠ .error "Job ID already exists") ∧
    (∀ r, (svcCreateJob maxJobs st prompt (some "") now rand).1 = .ok r →
        r = generateJobId now rand) ∧
    svcCreateJob maxJobs st prompt (some "") now rand =
      svcCreateJob maxJobs st prompt none now rand := by
  have heq : svcCreateJob maxJobs st prompt (some "") now rand =
      svcCreateJob maxJobs st prompt none now rand := by
    simp [svcCreateJob, jsTruthyId]
  refine ⟨?_, ?_, heq⟩ <;>
    · simp only [svcCreateJob, jsTruthyId]
      cases hsc : storageCreateJob maxJobs st (freshJob (generateJobId now rand) prompt now) with
      | error e =>
          have he := storageCreateJob_error_msg _ _ _ _ hsc
          subst he
          simp [hsc]
      | ok st1 =>
          simp [hsc]

/-- C10 witness: with a stored job whose id is the empty string, the call
still succeeds with a generated id. -/
theorem claim_C10_witness :
    ((svcCreateJob 10 { jobs := [("", freshJob "" "p" 0)], streams := [] }
        "q" (some "") 5 "zz").1 ≠ .error "Job ID already exists") ∧
    ((svcCreateJob 10 { jobs := [("", freshJob "" "p" 0)], streams := [] }
        "q" (some "") 5 "zz").1 = .ok "job_5_zz" → ("job_5_zz" : String) = generateJobId 5 "zz") :=
  ⟨(claim_C10 10 { jobs := [("", freshJob "" "p" 0)], streams := [] } "q" 5 "zz").1,
   (claim_C10 10 { jobs := [("", freshJob "" "p" 0)], streams := [] } "q" 5 "zz").2.1 "job_5_zz"⟩

/-! ## C7 — terminateJob -/

/-- C7 (confirmed): an undisturbed `terminateJob` call rejects not-found on an
absent job and invalid-state on any status other than exactly `running`; on a
running job it writes `terminating` strictly before the kill signal (event
order); when the kill throws it restores the status to `running` and raises,
leaving the job exactly as before; and an absent process handle likewise
raises with the status restored to `running` and the job unchanged. -/
theorem claim_C7 (maxC : Nat) (s : SysState) (kw : Bool) (hterms : s.terms = []) :
    (s.job = none →
      (runTerminate maxC s kw).bind (fun s2 => termResultAt s2 0) = some .notFound ∧
      (runTerminate maxC s kw).map SysState.job = some none) ∧
    (∀ j, s.job = some j → j.status ≠ .running →
      (runTerminate maxC s kw).bind (fun s2 => termResultAt s2 0) = some .invalidState ∧
      (runTerminate maxC s kw).map SysState.job = some (some j) ∧
      (runTerminate maxC s kw).map SysState.events = some s.events) ∧
    (∀ j, s.job = some j → j.status = .running → j.processAttached = true → kw = true →
      (runTerminate maxC s kw).bind (fun s2 => termResultAt s2 0) = some .success ∧
      (runTerminate maxC s kw).map (fun s2 => s2.job.map Job.status) =
        some (some .terminated) ∧
      (runTerminate maxC s kw).map SysState.events =
        some (s.events ++ [.wroteStatus .terminating, .killSignal, .wroteStatus .terminated])) ∧
    (∀ j, s.job = some j → j.status = .running → j.processAttached = true → kw = false →
      (runTerminate maxC s kw).bind (fun s2 => termResultAt s2 0) = some .killFailed ∧
      (runTerminate maxC s kw).map SysState.job = some (some j) ∧
      (runTerminate maxC s kw).map SysState.events =
        some (s.events ++ [.wroteStatus .terminating, .killSignal, .wroteStatus .running])) ∧
    (∀ j, s.job = some j → j.status = .running → j.processAttached = false →
      (runTerminate maxC s kw).bind (fun s2 => termResultAt s2 0) = some .noProcess ∧
      (runTerminate maxC s kw).map SysState.job = some (some j) ∧
      (runTerminate maxC s kw).map SysState.events =
        some (s.events ++ [.wroteStatus .terminating, .wroteStatus .running])) := by
  obtain ⟨job, stream, bg, terms, dels, po, pe, ec, ck, ev⟩ := s
  simp only at hterms
  subst hterms
  refine ⟨?_, ?_, ?_, ?_, ?_⟩
  · intro hn
    simp only at hn
    subst hn
    exact ⟨rfl, rfl⟩
  · intro j hj hst
    simp only at hj
    subst hj
    refine ⟨?_, ?_, ?_⟩ <;>
      simp [runTerminate, runTrace, step, doSpawnTerm, stepTermAt, termSeg, termResultAt, hst]
  · intro j hj hst hpa hkw
    simp only at hj
    subst hj
    subst hkw
    refine ⟨?_, ?_, ?_⟩ <;>
      simp [runTerminate, runTrace, step, doSpawnTerm, stepTermAt, termSeg, termResultAt,
        sysCompleteJob, sysAddChunk, hst, hpa]
  · intro j hj hst hpa hkw
    simp only at hj
    subst hj
    subst hkw
    have hrestore : { j with status := Status.running, processAttached := true } = j := by
      rw [← hst, ← hpa]
    refine ⟨?_, ?_, ?_⟩ <;>
      simp [runTerminate, runTrace, step, doSpawnTerm, stepTermAt, termSeg, termResultAt,
        hst, hpa, hrestore]
  · intro j hj hst hpa
    simp only at hj
    subst hj
    have hrestore : { j with status := Status.running, processAttached := false } = j := by
      rw [← hst, ← hpa]
    refine ⟨?_, ?_, ?_⟩ <;>
      simp [runTerminate, runTrace, step, doSpawnTerm, stepTermAt, termSeg, termResultAt,
        hst, hpa, hrestore]

/-- C7 witness: a failing kill on a concrete running job yields the error and
restores the job unchanged. -/
theorem claim_C7_witness :
    wRunState.terms = [] ∧
    (runTerminate 1000 wRunState false).bind (fun s2 => termResultAt s2 0) =
      some .killFailed ∧
    (runTerminate 1000 wRunState false).map SysState.job = some (some wRunJob) :=
  ⟨rfl,
   ((claim_C7 1000 wRunState false rfl).2.2.2.1 wRunJob rfl rfl rfl rfl).1,
   ((claim_C7 1000 wRunState false rfl).2.2.2.1 wRunJob rfl rfl rfl rfl).2.1⟩

/-! ## C8 — deleteJob -/

/-- C8 (confirmed): an undisturbed `deleteJob` call returns success without
raising on an absent id; raises invalid-state on a running job removing
nothing; and on any existing non-running job removes both the job and its
output stream and returns success. -/
theorem claim_C8 (maxC : Nat) (s : SysState) (hdels : s.dels = []) :
    (s.job = none →
      (runDelete maxC s).bind (fun s2 => delResultAt s2 0) = some true ∧
      (runDelete maxC s).map SysState.job = some none ∧
      (runDelete maxC s).map SysState.stream = some s.stream) ∧
    (∀ j, s.job = some j → j.status = .running →
      (runDelete maxC s).bind (fun s2 => delResultAt s2 0) = some false ∧
      (runDelete maxC s).map SysState.job = some (some j) ∧
      (runDelete maxC s).map SysState.stream = some s.stream) ∧
    (∀ j, s.job = some j → j.status ≠ .running →
      (runDelete maxC s).bind (fun s2 => delResultAt s2 0) = some true ∧
      (runDelete maxC s).map SysState.job = some none ∧
      (runDelete maxC s).map SysState.stream = some none) := by
  obtain ⟨job, stream, bg, terms, dels, po, pe, ec, ck, ev⟩ := s
  simp only at hdels
  subst hdels
  refine ⟨?_, ?_, ?_⟩
  · intro hn
    simp only at hn
    subst hn
    exact ⟨rfl, rfl, rfl⟩
  · intro j hj hst
    simp only at hj
    subst hj
    refine ⟨?_, ?_, ?_⟩ <;>
      simp [runDelete, runTrace, step, doSpawnDel, stepDelAt, delResultAt, hst]
  · intro j hj hst
    simp only at hj
    subst hj
    refine ⟨?_, ?_, ?_⟩ <;>
      simp [runDelete, runTrace, step, doSpawnDel, stepDelAt, delResultAt, hst]

/-- C8 witness: deleting the running `wRunState` job is rejected and removes
nothing. -/
theorem claim_C8_witness :
    wRunState.dels = [] ∧
    (runDelete 1000 wRunState).bind (fun s2 => delResultAt s2 0) = some false ∧
    (runDelete 1000 wRunState).map SysState.job = some (some wRunJob) :=
  ⟨rfl,
   ((claim_C8 1000 wRunState rfl).2.1 wRunJob rfl rfl).1,
   ((claim_C8 1000 wRunState rfl).2.1 wRunJob rfl rfl).2.1⟩

/-! ## C2 and C3 — status machine and terminal invariants over the
interleaving model -/

theorem storeAndLog_job (maxC : Nat) (s : SysState) (text : String) (ct : CType) :
    ∀ j', (storeAndLog maxC s text ct).job = some j' →
      ∃ j, s.job = some j ∧ j'.status = j.status ∧ j'.finishedAt = j.finishedAt := by
  intro j' hj'
  cases hj : s.job with
  | none => simp [storeAndLog, sysAddChunk, hj] at hj'
  | some j =>
      simp [storeAndLog, sysAddChunk, hj] at hj'
      exact ⟨j, rfl, by rw [← hj'], by rw [← hj']⟩

theorem sysCompleteJob_job (maxC : Nat) (s : SysState) (st : Status) (add : String) :
    ∀ j', (sysCompleteJob maxC s st add).job = some j' →
      j'.status = st ∧ j'.finishedAt = some s.clock := by
  intro j' hj'
  cases hj : s.job with
  | none => simp [sysCompleteJob, hj] at hj'
  | some j =>
      simp [sysCompleteJob, sysAddChunk, hj] at hj'
      exact ⟨by rw [← hj'], by rw [← hj']⟩

/-- Per-step analysis of the tracked job: any scheduler step either keeps the
status and `finishedAt` of the stored job, writes `running` or `terminating`,
or performs a `completeJob` write, which stores a terminal status and a
non-null `finishedAt` in the same update. -/
theorem step_job_rel (maxC : Nat) {s s' : SysState} {a : Act}
    (h : step maxC s a = some s') :
    ∀ j', s'.job = some j' →
      (∃ j, s.job = some j ∧ j'.status = j.status ∧ j'.finishedAt = j.finishedAt)
      ∨ j'.status = .running
      ∨ j'.status = .terminating
      ∨ (isTerminal j'.status ∧ j'.finishedAt.isSome) := by
  intro j' hj'
  obtain ⟨job, stream, bg, terms, dels, po, pe, ec, ck, ev⟩ := s
  cases a with
  | bg =>
      simp only [step] at h
      obtain ⟨s1, h1, rfl⟩ := Option.map_eq_some'.mp h
      simp only at hj'
      cases bg <;> simp only [stepBg] at h1
      case setRunning =>
          cases job with
          | none =>
              simp at h1
              subst h1
              simp at hj'
          | some j =>
              simp at h1
              subst h1
              simp at hj'
              right; left
              rw [← hj']
      case startProc =>
          simp at h1
          subst h1
          simp at hj'
          exact Or.inl ⟨j', hj', rfl, rfl⟩
      case storeHandle =>
          cases job with
          | none =>
              simp at h1
              subst h1
              simp at hj'
          | some j =>
              simp at h1
              subst h1
              simp at hj'
              right; left
              rw [← hj']
      case draining =>
          by_cases hc : po = [] ∧ pe = []
          · rw [if_pos hc] at h1
            simp at h1
            subst h1
            simp at hj'
            exact Or.inl ⟨j', hj', rfl, rfl⟩
          · rw [if_neg hc] at h1
            cases h1
      case awaitExit =>
          simp at h1
          subst h1
          simp at hj'
          exact Or.inl ⟨j', hj', rfl, rfl⟩
      case checkExists =>
          cases job with
          | none =>
              simp at h1
              subst h1
              simp at hj'
          | some j =>
              simp at h1
              subst h1
              simp at hj'
              exact Or.inl ⟨j, rfl, by rw [← hj'], by rw [← hj']⟩
      case clearHandle =>
          cases job with
          | none =>
              simp at h1
              subst h1
              simp at hj'
          | some j =>
              simp at h1
              subst h1
              simp at hj'
              exact Or.inl ⟨j, rfl, by rw [← hj'], by rw [← hj']⟩
      case finalize =>
          simp only [Option.some.injEq] at h1
          subst h1
          have hc := sysCompleteJob_job maxC ⟨job, stream, .finalize, terms, dels, po, pe, ec, ck, ev⟩
            (if ec = 0 then .completed else .failed)
            (if ec = 0 then "" else "Process exited with code " ++ toString ec)
            j' hj'
          right; right; right
          refine ⟨?_, by rw [hc.2]; rfl⟩
          rw [hc.1]
          by_cases he : ec = 0 <;> simp [he, isTerminal]
      case failCatch msg =>
          cases job with
          | none =>
              simp at h1
              subst h1
              simp at hj'
          | some j =>
              simp only [Option.some.injEq] at h1
              subst h1
              have hc := sysCompleteJob_job maxC
                ⟨some j, stream, .failCatch msg, terms, dels, po, pe, ec, ck, ev⟩ .failed msg j' hj'
              right; right; right
              rw [hc.1, hc.2]
              exact ⟨by simp [isTerminal], rfl⟩
      case done => cases h1
  | bgStartFail msg =>
      simp only [step] at h
      obtain ⟨s1, h1, rfl⟩ := Option.map_eq_some'.mp h
      simp only at hj'
      by_cases hc : bg = BgPC.startProc
      · subst hc
        rw [if_pos rfl] at h1
        simp at h1
        subst h1
        simp at hj'
        exact Or.inl ⟨j', hj', rfl, rfl⟩
      · rw [if_neg (by simpa using hc)] at h1
        cases h1
  | outStep =>
      simp only [step] at h
      obtain ⟨s1, h1, rfl⟩ := Option.map_eq_some'.mp h
      simp only at hj'
      cases bg <;> cases po <;> simp only [stepOut] at h1
      all_goals simp at h1
      rename_i t rest
      subst h1
      have hsl := storeAndLog_job maxC ⟨job, stream, .draining, terms, dels, t :: rest, pe, ec, ck, ev⟩
        t .stdout j' (by simpa using hj')
      exact Or.inl hsl
  | errStep =>
      simp only [step] at h
      obtain ⟨s1, h1, rfl⟩ := Option.map_eq_some'.mp h
      simp only at hj'
      cases bg <;> cases pe <;> simp only [stepErr] at h1
      all_goals simp at h1
      rename_i t rest
      subst h1
      have hsl := storeAndLog_job maxC ⟨job, stream, .draining, terms, dels, po, t :: rest, ec, ck, ev⟩
        t .stderr j' (by simpa using hj')
      exact Or.inl hsl
  | spawnTerm kw =>
      simp only [step] at h
      obtain ⟨s1, h1, rfl⟩ := Option.map_eq_some'.mp h
      simp only at hj'
      cases job <;> simp [doSpawnTerm] at h1 <;> subst h1 <;> simp at hj'
      exact Or.inl ⟨j', by rw [hj'], rfl, rfl⟩
  | termStep i =>
      simp only [step] at h
      obtain ⟨s1, h1, rfl⟩ := Option.map_eq_some'.mp h
      simp only at hj'
      cases hti : terms.get? i with
      | none =>
          simp only [stepTermAt, hti] at h1
          exact Option.noConfusion h1
      | some t =>
          simp only [stepTermAt, hti] at h1
          cases hpc : t.pc with
          | check snap =>
              by_cases hrun : snap.status = Status.running
              · simp only [termSeg, hpc, hrun] at h1
                cases job with
                | none =>
                    simp at h1
                    subst h1
                    simp at hj'
                | some j =>
                    simp at h1
                    subst h1
                    simp at hj'
                    right; right; left
                    rw [← hj']
              · simp only [termSeg, hpc] at h1
                rw [if_pos (by simpa using hrun)] at h1
                simp at h1
                subst h1
                simp at hj'
                exact Or.inl ⟨j', hj', rfl, rfl⟩
          | doKill snap =>
              by_cases hpa : snap.processAttached = true
              · cases hkw : t.killWorks
                · simp only [termSeg, hpc, hpa, hkw] at h1
                  cases job with
                  | none =>
                      simp at h1
                      subst h1
                      simp at hj'
                  | some j =>
                      simp at h1
                      subst h1
                      simp at hj'
                      right; left
                      rw [← hj']
                · simp only [termSeg, hpc, hpa, hkw] at h1
                  simp at h1
                  subst h1
                  simp at hj'
                  exact Or.inl ⟨j', hj', rfl, rfl⟩
              · simp only [termSeg, hpc] at h1
                rw [if_neg hpa] at h1
                cases job with
                | none =>
                    simp at h1
                    subst h1
                    simp at hj'
                | some j =>
                    simp at h1
                    subst h1
                    simp at hj'
                    right; left
                    rw [← hj']
          | finalize =>
              simp only [termSeg, hpc] at h1
              simp only [Option.some.injEq] at h1
              subst h1
              have hc := sysCompleteJob_job maxC
                ⟨job, stream, bg, terms, dels, po, pe, ec, ck, ev⟩ .terminated
                "Process terminated by user" j' (by simpa using hj')
              right; right; right
              rw [hc.1, hc.2]
              exact ⟨by simp [isTerminal], rfl⟩
          | done r =>
              simp only [termSeg, hpc] at h1
              simp at h1
              subst h1
              simp at hj'
              exact Or.inl ⟨j', hj', rfl, rfl⟩
  | spawnDel =>
      simp only [step] at h
      obtain ⟨s1, h1, rfl⟩ := Option.map_eq_some'.mp h
      simp only [doSpawnDel] at h1
      simp at h1
      subst h1
      simp at hj'
      exact Or.inl ⟨j', hj', rfl, rfl⟩
  | delStep i =>
      simp only [step] at h
      obtain ⟨s1, h1, rfl⟩ := Option.map_eq_some'.mp h
      simp only at hj'
      cases hdi : dels.get? i with
      | none =>
          simp only [stepDelAt, hdi] at h1
          exact Option.noConfusion h1
      | some d =>
          cases d with
          | done b =>
              simp only [stepDelAt, hdi] at h1
              simp at h1
              subst h1
              exact Or.inl ⟨j', hj', rfl, rfl⟩
          | act snap =>
              cases snap with
              | none =>
                  simp only [stepDelAt, hdi] at h1
                  simp at h1
                  subst h1
                  simp at hj'
                  exact Or.inl ⟨j', hj', rfl, rfl⟩
              | some jd =>
                  by_cases hrun : jd.status = Status.running
                  · simp only [stepDelAt, hdi, hrun] at h1
                    simp at h1
                    subst h1
                    simp at hj'
                    exact Or.inl ⟨j', hj', rfl, rfl⟩
                  · simp only [stepDelAt, hdi] at h1
                    rw [if_neg hrun] at h1
                    simp at h1
                    subst h1
                    simp at hj'

/-- C3 (amended): over every reachable state of the interleaving model, a job
holding a terminal status (`completed`, `failed`, `terminated`) has a non-null
`finishedAt` — the terminal write of `completeJob` stores both in one update.
(The no-further-chunks half of the original claim is refuted separately.) -/
theorem claim_C3 {maxC : Nat} {id prompt : String} {outs errs : List String} {exit : Nat}
    {s : SysState} (hr : Reach maxC (initState id prompt outs errs exit) s) :
    ∀ j, s.job = some j → isTerminal j.status → j.finishedAt.isSome := by
  induction hr with
  | refl =>
      intro j hj ht
      simp [initState, freshJob] at hj
      rw [← hj] at ht
      simp [isTerminal] at ht
  | tail hr hstep ih =>
      intro j hj ht
      rcases step_job_rel _ hstep j hj with ⟨j0, hj0, hst, hfin⟩ | hs | hs | ⟨_, hfin⟩
      · rw [hfin]
        exact ih j0 hj0 (hst ▸ ht)
      · rw [hs] at ht
        simp [isTerminal] at ht
      · rw [hs] at ht
        simp [isTerminal] at ht
      · exact hfin

/-- While the tracked job is still pending (with the background task at its
first segment and no terminate call past its status check), a scheduler step
either writes `running` or leaves the job record identical and preserves those
side conditions. -/
theorem pend_step_analysis (maxC : Nat) {s s' : SysState} {a : Act}
    (h : step maxC s a = some s')
    {j : Job} (hj : s.job = some j) (hp : j.status = .pending)
    (hbg : s.bg = .setRunning) (hterms : ∀ t ∈ s.terms, termPendOK t) :
    ∀ j', s'.job = some j' →
      j'.status = .running ∨
      (j' = j ∧ s'.bg = .setRunning ∧ ∀ t ∈ s'.terms, termPendOK t) := by
  intro j' hj'
  obtain ⟨job, stream, bg, terms, dels, po, pe, ec, ck, ev⟩ := s
  simp only at hj hbg hterms
  subst hbg
  subst hj
  cases a with
  | bg =>
      simp only [step, stepBg] at h
      obtain ⟨s1, h1, rfl⟩ := Option.map_eq_some'.mp h
      simp at h1
      subst h1
      simp at hj'
      left
      rw [← hj']
  | bgStartFail msg =>
      simp only [step] at h
      rw [if_neg (by simp)] at h
      exact Option.noConfusion h
  | outStep =>
      simp only [step, stepOut] at h
      exact Option.noConfusion h
  | errStep =>
      simp only [step, stepErr] at h
      exact Option.noConfusion h
  | spawnTerm kw =>
      simp only [step, doSpawnTerm] at h
      obtain ⟨s1, h1, rfl⟩ := Option.map_eq_some'.mp h
      simp at h1
      subst h1
      simp at hj'
      right
      refine ⟨hj'.symm, rfl, ?_⟩
      intro t ht
      rcases List.mem_append.mp ht with ht | ht
      · exact hterms t ht
      · simp at ht
        subst ht
        simp [termPendOK, hp]
  | termStep i =>
      simp only [step] at h
      obtain ⟨s1, h1, rfl⟩ := Option.map_eq_some'.mp h
      cases hti : terms.get? i with
      | none =>
          simp only [stepTermAt, hti] at h1
          exact Option.noConfusion h1
      | some t =>
          have htmem := hterms t (List.get?_mem hti)
          simp only [stepTermAt, hti] at h1
          cases hpc : t.pc with
          | check snap =>
              have hsnap : snap.status ≠ Status.running := by
                have := htmem
                rw [termPendOK, hpc] at this
                exact this
              simp only [termSeg, hpc] at h1
              rw [if_pos (by simpa using hsnap)] at h1
              simp at h1
              subst h1
              simp at hj'
              right
              refine ⟨hj'.symm, rfl, ?_⟩
              intro x hx
              rcases List.mem_or_eq_of_mem_set hx with hx | hx
              · exact hterms x hx
              · subst hx
                simp [termPendOK]
          | doKill snap =>
              exact absurd htmem (by rw [termPendOK, hpc]; exact not_false_iff.mpr trivial |>.elim)
          | finalize =>
              exact absurd htmem (by rw [termPendOK, hpc]; exact fun x => x)
          | done r =>
              simp only [termSeg, hpc] at h1
              simp at h1
              subst h1
              simp at hj'
              right
              refine ⟨hj'.symm, rfl, ?_⟩
              intro x hx
              rcases List.mem_or_eq_of_mem_set hx with hx | hx
              · exact hterms x hx
              · subst hx
                simp [termPendOK, hpc]
  | spawnDel =>
      simp only [step, doSpawnDel] at h
      obtain ⟨s1, h1, rfl⟩ := Option.map_eq_some'.mp h
      simp at h1
      subst h1
      simp at hj'
      exact Or.inr ⟨hj'.symm, rfl, hterms⟩
  | delStep i =>
      simp only [step] at h
      obtain ⟨s1, h1, rfl⟩ := Option.map_eq_some'.mp h
      cases hdi : dels.get? i with
      | none =>
          simp only [stepDelAt, hdi] at h1
          exact Option.noConfusion h1
      | some d =>
          cases d with
          | done b =>
              simp only [stepDelAt, hdi] at h1
              simp at h1
              subst h1
              simp at hj'
              exact Or.inr ⟨hj'.symm, rfl, hterms⟩
          | act snap =>
              cases snap with
              | none =>
                  simp only [stepDelAt, hdi] at h1
                  simp at h1
                  subst h1
                  simp at hj'
                  exact Or.inr ⟨hj'.symm, rfl, hterms⟩
              | some jd =>
                  by_cases hrun : jd.status = Status.running
                  · simp only [stepDelAt, hdi, hrun] at h1
                    simp at h1
                    subst h1
                    simp at hj'
                    exact Or.inr ⟨hj'.symm, rfl, hterms⟩
                  · simp only [stepDelAt, hdi] at h1
                    rw [if_neg hrun] at h1
                    simp at h1
                    subst h1
                    simp at hj'

theorem pendInv_step (maxC : Nat) {s s' : SysState} {a : Act}
    (hInv : PendInv s) (h : step maxC s a = some s') : PendInv s' := by
  intro j' hj' hp'
  rcases step_job_rel maxC h j' hj' with ⟨j, hj, hst, _⟩ | hs | hs | ⟨hterm, _⟩
  · have hp : j.status = .pending := by rw [← hst, hp']
    obtain ⟨hbg, hterms⟩ := hInv j hj hp
    rcases pend_step_analysis maxC h hj hp hbg hterms j' hj' with hr | ⟨_, hbg', hterms'⟩
    · rw [hr] at hp'
      cases hp'
    · exact ⟨hbg', hterms'⟩
  · rw [hs] at hp'
    cases hp'
  · rw [hs] at hp'
    cases hp'
  · rw [hp'] at hterm
    simp [isTerminal] at hterm

theorem reach_pendInv {maxC : Nat} {id prompt : String} {outs errs : List String} {exit : Nat}
    {s : SysState} (hr : Reach maxC (initState id prompt outs errs exit) s) : PendInv s := by
  induction hr with
  | refl =>
      intro j hj hp
      refine ⟨rfl, ?_⟩
      intro t ht
      simp [initState] at ht
  | tail hr hstep ih => exact pendInv_step _ ih hstep

/-- C2 (amended): over every reachable state of the interleaving model, any
step that changes the stored status never writes `pending`, and the only
transition out of `pending` is to `running`.  Terminal statuses, however, are
not stable (see the counterexample): the background task's exit finalization
can overwrite `terminated` with `completed` or `failed`. -/
theorem claim_C2 (maxC : Nat) (id prompt : String) (outs errs : List String) (exit : Nat)
    (s s' : SysState) (a : Act)
    (hr : Reach maxC (initState id prompt outs errs exit) s)
    (hstep : step maxC s a = some s')
    (j j' : Job) (hj : s.job = some j) (hj' : s'.job = some j')
    (hne : j.status ≠ j'.status) :
    j'.status ≠ .pending ∧ (j.status = .pending → j'.status = .running) := by
  constructor
  · intro hp'
    rcases step_job_rel maxC hstep j' hj' with ⟨j0, hj0, hst, _⟩ | hs | hs | ⟨hterm, _⟩
    · rw [hj0] at hj
      have : j0 = j := by injection hj
      subst this
      exact hne hst.symm
    · rw [hs] at hp'
      cases hp'
    · rw [hs] at hp'
      cases hp'
    · rw [hp'] at hterm
      simp [isTerminal] at hterm
  · intro hp
    obtain ⟨hbg, hterms⟩ := reach_pendInv hr j hj hp
    rcases pend_step_analysis maxC hstep hj hp hbg hterms j' hj' with hr' | ⟨rfl, _, _⟩
    · exact hr'
    · exact absurd rfl hne

theorem reach_trans {maxC : Nat} {s0 s1 s2 : SysState}
    (h1 : Reach maxC s0 s1) (h2 : Reach maxC s1 s2) : Reach maxC s0 s2 := by
  induction h2 with
  | refl => exact h1
  | tail _ hs ih => exact Reach.tail ih hs

theorem reach_of_runTrace (maxC : Nat) {s0 s : SysState} {l : List Act}
    (h : runTrace maxC s0 l = some s) : Reach maxC s0 s := by
  induction l generalizing s0 with
  | nil =>
      simp [runTrace] at h
      subst h
      exact Reach.refl
  | cons a rest ih =>
      simp only [runTrace] at h
      cases hs : step maxC s0 a with
      | none =>
          rw [hs] at h
          exact Option.noConfusion h
      | some s1 =>
          rw [hs] at h
          exact reach_trans (Reach.tail Reach.refl hs) (ih h)

/-- C2 (corrected, counterexample): a real schedule in which `terminateJob`
runs to completion while the background task awaits the exit promise — the job
reaches the terminal status `terminated` — and then the exit promise (exit
code 0) resolves and the background finalization overwrites the terminal
status with `completed`. -/
theorem claim_C2_counterexample :
    ((runTrace 1000 (initState "j1" "p" ["x\n"] [] 0) schedTermDuringExitWait).map
        (fun s => s.job.map Job.status) = some (some .terminated)) ∧
    ((runTrace 1000 (initState "j1" "p" ["x\n"] [] 0)
          (schedTermDuringExitWait ++ schedBgFinalize)).map
        (fun s => s.job.map Job.status) = some (some .completed)) ∧
    isTerminal .terminated ∧ Status.completed ≠ Status.terminated := by
  refine ⟨by decide, by decide, by simp [isTerminal], by decide⟩

/-- C2 witness: the amended theorem applied to the first step of a concrete
run (pending to running). -/
theorem claim_C2_witness :
    ({ freshJob "w" "p" 0 with status := Status.running } : Job).status ≠ Status.pending ∧
    ((freshJob "w" "p" 0).status = .pending →
      ({ freshJob "w" "p" 0 with status := Status.running } : Job).status = .running) :=
  claim_C2 1000 "w" "p" [] [] 0 (initState "w" "p" [] [] 0) c2After .bg Reach.refl
    (by rfl) (freshJob "w" "p" 0) { freshJob "w" "p" 0 with status := Status.running }
    rfl rfl (by decide)

/-- C3 (corrected, counterexample): a real schedule in which `terminateJob`
finalizes the job as `terminated` between two stdout chunk timers (the mock
kill does not stop the streams), after which the still-draining stdout loop
appends a further chunk to both the output history and the stream. -/
theorem claim_C3_counterexample :
    ((runTrace 1000 (initState "j1" "p" ["a\n", "b\n"] [] 0) schedTermBetweenChunks).map
        (fun s => (s.job.map Job.status, s.job.map (fun j => j.outputHistory.length),
                   s.stream.map (fun st => st.chunks.length))) =
      some (some .terminated, some 2, some 2)) ∧
    ((runTrace 1000 (initState "j1" "p" ["a\n", "b\n"] [] 0)
          (schedTermBetweenChunks ++ [Act.outStep])).map
        (fun s => (s.job.map Job.status, s.job.map (fun j => j.outputHistory.length),
                   s.stream.map (fun st => st.chunks.length))) =
      some (some .terminated, some 3, some 3)) ∧
    isTerminal .terminated := by
  refine ⟨by decide, by decide, by simp [isTerminal]⟩

/-- C3 witness: the amended theorem applied to the final state of a concrete
completed run. -/
theorem claim_C3_witness :
    isTerminal c3FinalJob.status ∧ c3FinalJob.finishedAt.isSome :=
  ⟨by simp [isTerminal, c3FinalJob],
   claim_C3 (reach_of_runTrace 1000 (show runTrace 1000 (initState "w" "p" [] [] 0)
       schedPlainRun = some c3FinalState by rfl))
     c3FinalJob rfl (by simp [isTerminal, c3FinalJob])⟩

/-! ## C9 — simulated adapter error script -/

/-- C9 (confirmed): every prompt containing "error" or "fail"
(case-insensitively) selects the error script, whose stderr output is the one
fixed error chunk and whose exit code is 1; running the job over that script
stores exactly one stderr chunk with that text, and — since a non-zero exit
code is finalized as `failed` — the job finishes with status `failed` with the
exit code recorded as the reason. -/
theorem claim_C9 (p : String)
    (h : strIncludes (jsToLower p) "error" = true ∨ strIncludes (jsToLower p) "fail" = true) :
    selectMockResponse p = mockError ∧
    mockError.errorChunks = ["Error: Something went wrong\n"] ∧
    mockError.exitCode = 1 ∧
    ((runTrace 1000 (initMock "job_1_a" p (selectMockResponse p)) schedMockErrorRun).map
        (fun s => (s.job.map Job.status,
                   s.stream.map (fun st => st.chunks.filter (fun c => c.ctype = CType.stderr)),
                   s.job.map Job.completeMessage)) =
      some (some .failed,
            some [{ text := "Error: Something went wrong\n", ctype := .stderr, timestamp := 5 }],
            some ((("" ++ "Starting task...\n\n") ++ "Error: Something went wrong\n") ++
              ("\n" ++ ("Process exited with code " ++ toString (1 : Nat)))))) ∧
    ((("" ++ "Starting task...\n\n") ++ "Error: Something went wrong\n") ++
        ("\n" ++ ("Process exited with code " ++ toString (1 : Nat)))) =
      "Starting task...\n\nError: Something went wrong\n\nProcess exited with code 1" := by
  have hne : p ≠ "" := by
    intro hp
    subst hp
    rcases h with h | h <;> exact absurd h (by decide)
  have hsel : selectMockResponse p = mockError := by
    unfold selectMockResponse
    rw [if_neg hne]
    rcases h with h | h <;> simp [h]
  refine ⟨hsel, rfl, rfl, ?_, by decide⟩
  rw [hsel]
  rfl

/-- C9 witness: the theorem applied to the prompt "ERROR please". -/
theorem claim_C9_witness :
    selectMockResponse "ERROR please" = mockError ∧ mockError.exitCode = 1 :=
  ⟨(claim_C9 "ERROR please" (Or.inl (by decide))).1,
   (claim_C9 "ERROR please" (Or.inl (by decide))).2.2.1⟩

end Cletus
